import Mathlib

/-!
Verification of the transaction parser and analytics aggregator of
`src/app.js` (personal-finance-tracker).

Modelling conventions:
* JavaScript strings are modelled as `List Char` (Lean `String` at the
  API boundary); JavaScript numbers as `ℚ` (exact arithmetic; the
  source's `Number.EPSILON` is kept as the explicit constant `2⁻⁵²`
  where the source adds it).
* Each regular expression of the source is compiled by hand into a
  deterministic matcher realising the leftmost-match, ordered
  alternation, greedy quantifier semantics of JavaScript regexes for
  that concrete pattern.
* Object-literal key lookup (`monthMap[...]`) is modelled as a finite
  association list; `Array.prototype.sort` (stable in JS) is modelled
  as a stable insertion sort; `createdAt` (a wall-clock timestamp) is
  omitted from the `Transaction` record.
-/

/- The Batteries arithmetic on `ℚ` is `@[irreducible]`, which blocks the
evaluation of concrete scenarios by `decide`; re-enable unfolding. -/
attribute [local semireducible] Rat.add Rat.mul Rat.inv Rat.sub Rat.ofScientific

/-- ASCII digit, the JavaScript `\d` class. -/
def jsIsDigit (c : Char) : Bool := decide (48 ≤ c.toNat ∧ c.toNat ≤ 57)

/-- ASCII letter, the JavaScript `[A-Za-z]` class. -/
def jsIsAlpha (c : Char) : Bool :=
  decide ((97 ≤ c.toNat ∧ c.toNat ≤ 122) ∨ (65 ≤ c.toNat ∧ c.toNat ≤ 90))

/-- The JavaScript `\w` class (used for the `\b` word boundary). -/
def jsIsWordChar (c : Char) : Bool := jsIsAlpha c || jsIsDigit c || c = '_'

/-- The JavaScript `\s` class (WhiteSpace ∪ LineTerminator). -/
def jsIsSpace (c : Char) : Bool :=
  c = ' ' || c = '\t' || c = '\n' || c = '\r' ||
  c = Char.ofNat 0x0B || c = Char.ofNat 0x0C || c = Char.ofNat 0xA0 ||
  c = Char.ofNat 0x1680 ||
  decide (0x2000 ≤ c.toNat ∧ c.toNat ≤ 0x200A) ||
  c = Char.ofNat 0x2028 || c = Char.ofNat 0x2029 ||
  c = Char.ofNat 0x202F || c = Char.ofNat 0x205F || c = Char.ofNat 0x3000 ||
  c = Char.ofNat 0xFEFF

/-- The separator class `[\/\.\-]` of the date patterns. -/
def isSepChar (c : Char) : Bool := c = '/' || c = '.' || c = '-'

/-- `String.prototype.trim`. -/
def jsTrim (l : List Char) : List Char :=
  ((l.dropWhile jsIsSpace).reverse.dropWhile jsIsSpace).reverse

/-- `String.prototype.split('\n')`. -/
def splitNl : List Char → List (List Char)
  | [] => [[]]
  | c :: t =>
    if c = '\n' then [] :: splitNl t
    else
      match splitNl t with
      | h :: r => (c :: h) :: r
      | [] => [[c]]

/-- `String.prototype.toLowerCase`, restricted to ASCII (sufficient for
the keyword tables of the source, which are all ASCII). -/
def jsToLowerChar (c : Char) : Char :=
  if 65 ≤ c.toNat ∧ c.toNat ≤ 90 then Char.ofNat (c.toNat + 32) else c

def jsToLower (l : List Char) : List Char := l.map jsToLowerChar

/-- Length of the maximal digit run at the head of the string. -/
def digitRunLen (l : List Char) : Nat := (l.takeWhile jsIsDigit).length

/-- Length of the maximal `\s` run at the head of the string. -/
def spaceRunLen (l : List Char) : Nat := (l.takeWhile jsIsSpace).length

/-- Length of the maximal `[A-Za-z]` run at the head of the string. -/
def alphaRunLen (l : List Char) : Nat := (l.takeWhile jsIsAlpha).length

/-- Numeric value of a digit string (the JavaScript unary `+` on a
digit-only string). -/
def digitsToNat (l : List Char) : Nat :=
  l.foldl (fun a c => 10 * a + (c.toNat - 48)) 0

theorem digitsToNat_foldl_lt (l : List Char) :
    ∀ a : Nat, (∀ c ∈ l, jsIsDigit c) →
      l.foldl (fun a c => 10 * a + (c.toNat - 48)) a < (a + 1) * 10 ^ l.length := by
  induction l with
  | nil => intro a _; simp
  | cons c t ih =>
    intro a h
    have hc : jsIsDigit c := h c (List.mem_cons_self c t)
    have hd : c.toNat - 48 ≤ 9 := by
      have := of_decide_eq_true hc
      omega
    have ht : ∀ x ∈ t, jsIsDigit x := fun x hx => h x (List.mem_cons_of_mem c hx)
    have h1 := ih (10 * a + (c.toNat - 48)) ht
    have h2 : (10 * a + (c.toNat - 48) + 1) * 10 ^ t.length ≤
        ((a + 1) * 10) * 10 ^ t.length := by
      have : 10 * a + (c.toNat - 48) + 1 ≤ (a + 1) * 10 := by omega
      exact Nat.mul_le_mul_right _ this
    calc List.foldl (fun a c => 10 * a + (c.toNat - 48)) a (c :: t)
        = List.foldl (fun a c => 10 * a + (c.toNat - 48)) (10 * a + (c.toNat - 48)) t := rfl
      _ < (10 * a + (c.toNat - 48) + 1) * 10 ^ t.length := h1
      _ ≤ ((a + 1) * 10) * 10 ^ t.length := h2
      _ = (a + 1) * 10 ^ (t.length + 1) := by ring
      _ = (a + 1) * 10 ^ (c :: t).length := by rw [List.length_cons]

theorem digitsToNat_lt (l : List Char) (h : ∀ c ∈ l, jsIsDigit c) :
    digitsToNat l < 10 ^ l.length := by
  have := digitsToNat_foldl_lt l 0 h
  simpa [digitsToNat] using this

/-- The `monthMap` table of src/app.js, lines 83-85. -/
def monthMap : List (String × Nat) :=
  [("jan", 1), ("feb", 2), ("mar", 3), ("apr", 4), ("may", 5), ("jun", 6),
   ("jul", 7), ("aug", 8), ("sep", 9), ("sept", 9), ("oct", 10), ("nov", 11),
   ("dec", 12)]

def lookupMonth : List (String × Nat) → String → Option Nat
  | [], _ => none
  | (k, v) :: t, s => if k = s then some v else lookupMonth t s

theorem lookupMonth_mem {t : List (String × Nat)} {s : String} {v : Nat}
    (h : lookupMonth t s = some v) : ∃ p ∈ t, p.2 = v := by
  induction t with
  | nil => simp [lookupMonth] at h
  | cons p t ih =>
    by_cases hk : p.1 = s
    · refine ⟨p, List.mem_cons_self p t, ?_⟩
      simp only [lookupMonth, hk, if_pos] at h
      exact (Option.some.injEq _ _).mp h
    · have : lookupMonth t s = some v := by
        simpa [lookupMonth, hk] using h
      obtain ⟨q, hq, hv⟩ := ih this
      exact ⟨q, List.mem_cons_of_mem p hq, hv⟩

theorem monthMap_range : ∀ p ∈ monthMap, 1 ≤ p.2 ∧ p.2 ≤ 12 := by decide

/-- The string rendering of the `Object` constructor function under V8
(the engine of the Node.js target): `ToString(Object)`. -/
def objectCtorStr : String := "function Object() \x7b [native code] \x7d"

/-- The source's `monthMap[...]` (src/app.js line 115) is a plain
JavaScript object property access, which falls back to the prototype
chain on a missing own key.  The looked-up name is the lowercased
`[A-Za-z]{3,}` capture, so it consists only of lowercase ASCII letters;
of `Object.prototype`'s property names, exactly `"constructor"` has
that shape (the others contain uppercase letters or underscores), and
its inherited value is the `Object` constructor — a truthy non-number.
The access therefore yields an own month number (`Sum.inl`), the
inherited constructor (`Sum.inr` with its string rendering), or
`undefined` (`none`). -/
def monthMapGet (name : String) : Option (Nat ⊕ String) :=
  match lookupMonth monthMap name with
  | some n => some (Sum.inl n)
  | none => if name = "constructor" then some (Sum.inr objectCtorStr) else none

theorem monthMapGet_inl {nm : String} {mo : Nat}
    (h : monthMapGet nm = some (Sum.inl mo)) : lookupMonth monthMap nm = some mo := by
  unfold monthMapGet at h
  cases hl : lookupMonth monthMap nm with
  | some n =>
    rw [hl] at h
    dsimp only at h
    simp only [Option.some.injEq, Sum.inl.injEq] at h
    rw [h]
  | none =>
    rw [hl] at h
    dsimp only at h
    split at h <;> simp at h

theorem monthMapGet_inr {nm sv : String}
    (h : monthMapGet nm = some (Sum.inr sv)) : sv = objectCtorStr := by
  unfold monthMapGet at h
  cases hl : lookupMonth monthMap nm with
  | some n => rw [hl] at h; simp at h
  | none =>
    rw [hl] at h
    dsimp only at h
    split at h
    · simp only [Option.some.injEq, Sum.inr.injEq] at h
      exact h.symm
    · simp at h

/-- `pad2` of src/app.js, lines 87-89. -/
def pad2 (n : Nat) : String := if n < 10 then "0" ++ Nat.repr n else Nat.repr n

/-- `pad2` applied to the result of the object access: on the inherited
constructor function, `n < 10` compares through `ToNumber` as `NaN` and
is false, so the ternary returns the string rendering unchanged. -/
def pad2Js : Nat ⊕ String → String
  | Sum.inl n => pad2 n
  | Sum.inr s => s

/-- The template string of `parseDateStr`: `` `${y}-${pad2(mo)}-${pad2(d)}` ``. -/
def mkDateStr (y mo d : Nat) : String :=
  Nat.repr y ++ "-" ++ pad2 mo ++ "-" ++ pad2 d

/-- Anchored matcher for `^(\d{4})[\/\.\-](\d{1,2})[\/\.\-](\d{1,2})$`
(first pattern of `parseDateStr`).  Returns `(y, mo, d)` capture values. -/
def dateShape1 (s : List Char) : Option (Nat × Nat × Nat) :=
  match s with
  | c1 :: c2 :: c3 :: c4 :: c5 :: rest =>
    if jsIsDigit c1 ∧ jsIsDigit c2 ∧ jsIsDigit c3 ∧ jsIsDigit c4 ∧ isSepChar c5 then
      let r2 := digitRunLen rest
      if 1 ≤ r2 ∧ r2 ≤ 2 then
        match rest.drop r2 with
        | c6 :: rest2 =>
          if isSepChar c6 ∧ 1 ≤ rest2.length ∧ rest2.length ≤ 2 ∧ rest2.all jsIsDigit then
            some (digitsToNat [c1, c2, c3, c4], digitsToNat (rest.take r2),
              digitsToNat rest2)
          else none
        | [] => none
      else none
    else none
  | _ => none

/-- Anchored matcher for `^(\d{1,2})[\/\.\-](\d{1,2})[\/\.\-](\d{2,4})$`
(second pattern of `parseDateStr`).  Returns `(d, mo, yRaw)`. -/
def dateShape2 (s : List Char) : Option (Nat × Nat × Nat) :=
  let r1 := digitRunLen s
  if 1 ≤ r1 ∧ r1 ≤ 2 then
    match s.drop r1 with
    | c :: rest =>
      if isSepChar c then
        let r2 := digitRunLen rest
        if 1 ≤ r2 ∧ r2 ≤ 2 then
          match rest.drop r2 with
          | c2 :: rest2 =>
            if isSepChar c2 ∧ 2 ≤ rest2.length ∧ rest2.length ≤ 4 ∧ rest2.all jsIsDigit then
              some (digitsToNat (s.take r1), digitsToNat (rest.take r2),
                digitsToNat rest2)
            else none
          | [] => none
        else none
      else none
    | [] => none
  else none

/-- Anchored matcher for `^(\d{1,2})\s+([A-Za-z]{3,})\.?,?\s+(\d{2,4})$`
(third pattern of `parseDateStr`).  Returns `(d, monthName, yRaw)`. -/
def dateShape3 (s : List Char) : Option (Nat × List Char × Nat) :=
  let r1 := digitRunLen s
  if 1 ≤ r1 ∧ r1 ≤ 2 then
    let s1 := s.drop r1
    let w1 := spaceRunLen s1
    if 1 ≤ w1 then
      let s2 := s1.drop w1
      let ll := alphaRunLen s2
      if 3 ≤ ll then
        let s3 := s2.drop ll
        let s4 := if s3.head? = some '.' then s3.drop 1 else s3
        let s5 := if s4.head? = some ',' then s4.drop 1 else s4
        let w2 := spaceRunLen s5
        if 1 ≤ w2 then
          let s6 := s5.drop w2
          if 2 ≤ s6.length ∧ s6.length ≤ 4 ∧ s6.all jsIsDigit then
            some (digitsToNat (s.take r1), s2.take ll, digitsToNat s6)
          else none
        else none
      else none
    else none
  else none

/-- `m[2].toLowerCase().replace(/\.$/, '')` — strip one trailing dot
(a no-op on the all-letter capture, kept for fidelity). -/
def stripTrailingDot (l : List Char) : List Char :=
  match l.reverse with
  | '.' :: t => t.reverse
  | _ => l

/-- Third branch of `parseDateStr` (src/app.js lines 111-119).  The
`if (mo && d >= 1 && d <= 31)` truthiness test passes for every own
month number (all non-zero) and for the inherited constructor, and
fails only on `undefined`. -/
def parseDateStrC (s : List Char) : Option String :=
  match dateShape3 s with
  | some (d, name, y0) =>
    let nm := (stripTrailingDot (jsToLower name)).asString
    let y := if y0 < 100 then 2000 + y0 else y0
    match monthMapGet nm with
    | some mv =>
      if 1 ≤ d ∧ d ≤ 31 then
        some (Nat.repr y ++ "-" ++ pad2Js mv ++ "-" ++ pad2 d)
      else none
    | none => none
  | none => none

/-- Second branch of `parseDateStr` (src/app.js lines 103-109); falls
through to the third branch when the shape matches but the ranges fail,
exactly as the source does. -/
def parseDateStrB (s : List Char) : Option String :=
  match dateShape2 s with
  | some (d, mo, y0) =>
    let y := if y0 < 100 then 2000 + y0 else y0
    if 1 ≤ mo ∧ mo ≤ 12 ∧ 1 ≤ d ∧ d ≤ 31 then some (mkDateStr y mo d)
    else parseDateStrC s
  | none => parseDateStrC s

/-- `parseDateStr` of src/app.js, lines 92-122: normalise a date token
to the template `` `${y}-${pad2(mo)}-${pad2(d)}` ``. -/
def parseDateStr (s0 : List Char) : Option String :=
  let s := jsTrim s0
  match dateShape1 s with
  | some (y, mo, d) =>
    if 1 ≤ mo ∧ mo ≤ 12 ∧ 1 ≤ d ∧ d ≤ 31 then some (mkDateStr y mo d)
    else parseDateStrB s
  | none => parseDateStrB s

example : parseDateStr "2024-03-05".data = some "2024-03-05" := by decide
example : parseDateStr "12/01/2024".data = some "2024-01-12" := by decide
example : parseDateStr "20 Jan 2025".data = some "2025-01-20" := by decide
example : parseDateStr "1/2/999".data = some "999-02-01" := by decide
example : parseDateStr "0000-01-01".data = some "0-01-01" := by decide
example : parseDateStr "31/02/24".data = some "2024-02-31" := by decide
example : parseDateStr "13/13/2024".data = none := by decide
example : parseDateStr "20 January 2025".data = none := by decide
example : parseDateStr "5 Sept 99".data = some "2099-09-05" := by decide
example : parseDateStr "12 constructor 2024".data =
    some ("2024-" ++ objectCtorStr ++ "-12") := by decide
example : parseDateStr "12 hasownproperty 2024".data = none := by decide

/-!  The `datePattern` of `parseTransactions` (src/app.js lines 217-221):
an unanchored alternation of three shapes, leftmost match wins, and at a
given position the alternatives are tried in source order.  Each matcher
below returns the match length at the head of its argument. -/

/-- First alternative `\d{1,2}[\/\.\-]\d{1,2}[\/\.\-]\d{2,4}`. -/
def dateAlt1 (s : List Char) : Option Nat :=
  let r1 := digitRunLen s
  if 1 ≤ r1 ∧ r1 ≤ 2 then
    match s.drop r1 with
    | c :: rest =>
      if isSepChar c then
        let r2 := digitRunLen rest
        if 1 ≤ r2 ∧ r2 ≤ 2 then
          match rest.drop r2 with
          | c2 :: rest2 =>
            if isSepChar c2 then
              let r3 := digitRunLen rest2
              if 2 ≤ r3 then some (r1 + 1 + r2 + 1 + min r3 4) else none
            else none
          | [] => none
        else none
      else none
    | [] => none
  else none

/-- Second alternative `\d{4}[\/\.\-]\d{1,2}[\/\.\-]\d{1,2}`. -/
def dateAlt2 (s : List Char) : Option Nat :=
  match s with
  | c1 :: c2 :: c3 :: c4 :: c5 :: rest =>
    if jsIsDigit c1 ∧ jsIsDigit c2 ∧ jsIsDigit c3 ∧ jsIsDigit c4 ∧ isSepChar c5 then
      let r2 := digitRunLen rest
      if 1 ≤ r2 ∧ r2 ≤ 2 then
        match rest.drop r2 with
        | c6 :: rest2 =>
          if isSepChar c6 then
            let r3 := digitRunLen rest2
            if 1 ≤ r3 then some (5 + r2 + 1 + min r3 2) else none
          else none
        | [] => none
      else none
    else none
  | _ => none

/-- Third alternative `\d{1,2}\s+[A-Za-z]{3,}\s+\d{2,4}`. -/
def dateAlt3 (s : List Char) : Option Nat :=
  let r1 := digitRunLen s
  if 1 ≤ r1 ∧ r1 ≤ 2 then
    let s1 := s.drop r1
    let w1 := spaceRunLen s1
    if 1 ≤ w1 then
      let s2 := s1.drop w1
      let ll := alphaRunLen s2
      if 3 ≤ ll then
        let s3 := s2.drop ll
        let w2 := spaceRunLen s3
        if 1 ≤ w2 then
          let s4 := s3.drop w2
          let r3 := digitRunLen s4
          if 2 ≤ r3 then some (r1 + w1 + ll + w2 + min r3 4) else none
        else none
      else none
    else none
  else none

/-- `datePattern` tried at one position: alternatives in source order. -/
def dateMatchAt (s : List Char) : Option Nat :=
  (dateAlt1 s).orElse fun _ => (dateAlt2 s).orElse fun _ => dateAlt3 s

/-- `line.match(datePattern)`: the leftmost match, as its matched text. -/
def findDate : List Char → Option (List Char)
  | [] => none
  | c :: t =>
    match dateMatchAt (c :: t) with
    | some len => some ((c :: t).take len)
    | none => findDate t

example : findDate "12/01/2024 SALARY CREDIT 50,000.00".data =
    some "12/01/2024".data := by decide
example : findDate "2024-03-05 ATM WITHDRAWAL (2,500.00)".data =
    some "2024-03-05".data := by decide
example : findDate "Opening Balance 10000.00".data = none := by decide
example : findDate "1/2/999 FEE 10.00".data = some "1/2/999".data := by decide
example : findDate "xx 20 Jan 2025 yy".data = some "20 Jan 2025".data := by decide

/-!  The `amtPattern` of `parseTransactions` (src/app.js line 225):
`(?:rs\.?|inr|usd|\$|₹)?\s*([+\-]?\(?\d{1,3}(?:,\d{3})*|\d+)(?:\.\d{1,2})?\)?`
with flags `ig`, executed repeatedly to collect every match text. -/

/-- Case-insensitive literal at the head of the string. -/
def litAtCI (lit s : List Char) : Bool :=
  match lit, s with
  | [], _ => true
  | _ :: _, [] => false
  | a :: lt, b :: st => jsToLowerChar b = a && litAtCI lt st

/-- The `(?:,\d{3})*` star: number of characters consumed (greedy). -/
def commaGroups : List Char → Nat
  | ',' :: a :: b :: c :: rest =>
    if jsIsDigit a ∧ jsIsDigit b ∧ jsIsDigit c then 4 + commaGroups rest else 0
  | _ => 0

/-- The capture group `([+\-]?\(?\d{1,3}(?:,\d{3})*|\d+)`: characters
consumed, or `none` if the group cannot match here.  The second branch
`\d+` is subsumed by the first (both need a digit after the optional
sign/parenthesis, and the first is tried first), so the ordered
alternation reduces to the first branch. -/
def amtGroup (s : List Char) : Option Nat :=
  let sg := match s.head? with
    | some '+' => 1
    | some '-' => 1
    | _ => 0
  let s1 := s.drop sg
  let pr := if s1.head? = some '(' then 1 else 0
  let s2 := s1.drop pr
  let dr := digitRunLen s2
  if 1 ≤ dr then
    let dt := min dr 3
    some (sg + pr + dt + commaGroups (s2.drop dt))
  else none

/-- `amtPattern` tried at one position: match length, or `none`. -/
def amtMatchAt (s : List Char) : Option Nat :=
  let pfx :=
    if litAtCI "rs.".data s then 3
    else if litAtCI "rs".data s then 2
    else if litAtCI "inr".data s then 3
    else if litAtCI "usd".data s then 3
    else if s.head? = some '$' then 1
    else if s.head? = some '₹' then 1
    else 0
  let s1 := s.drop pfx
  let ws := spaceRunLen s1
  let s2 := s1.drop ws
  match amtGroup s2 with
  | some g =>
    let s3 := s2.drop g
    let fr :=
      match s3 with
      | '.' :: t => let d := digitRunLen t; if 1 ≤ d then 1 + min d 2 else 0
      | _ => 0
    let s4 := s3.drop fr
    let cp := if s4.head? = some ')' then 1 else 0
    some (pfx + ws + g + fr + cp)
  | none => none

/-- The `while ((m = amtPattern.exec(line)) !== null)` loop: all match
texts, scanning left to right, each search resuming after the previous
match (the pattern never matches the empty string, since the capture
group requires a digit).  Fuel is the length of the residual string. -/
def amtScanF : Nat → List Char → List (List Char)
  | 0, _ => []
  | _ + 1, [] => []
  | f + 1, c :: t =>
    match amtMatchAt (c :: t) with
    | some len => (c :: t).take len :: amtScanF f ((c :: t).drop len)
    | none => amtScanF f t

def amtScan (s : List Char) : List (List Char) := amtScanF s.length s

example : amtScan "12/01/2024 SALARY CREDIT 50,000.00".data =
    ["12".data, "01".data, "202".data, "4".data, " 50,000.00".data] := by decide
example : amtScan "2024-03-05 ATM WITHDRAWAL (2,500.00)".data =
    ["202".data, "4".data, "-03".data, "-05".data, " (2,500.00)".data] := by decide
example : amtScan "rs.50 and 1234,567".data =
    ["rs.50".data, " 123".data, "4,567".data] := by decide

/-- The test `/\.\d{1,2}\)?$/.test(matchText)` (src/app.js line 305):
the string ends in a dot, one or two digits, and an optional `)`. -/
def hasDecimalEnd (l : List Char) : Bool :=
  match l.reverse with
  | ')' :: a :: '.' :: _ => jsIsDigit a
  | ')' :: a :: b :: '.' :: _ => jsIsDigit a && jsIsDigit b
  | a :: '.' :: _ => jsIsDigit a
  | a :: b :: '.' :: _ => jsIsDigit a && jsIsDigit b
  | _ => false

/-- The candidate filter of src/app.js lines 303-309: at least two
digits, and a decimal fraction, a comma, or at most eight digits. -/
def amtCandidateOk (l : List Char) : Bool :=
  let digits := l.countP jsIsDigit
  decide (2 ≤ digits) &&
    (hasDecimalEnd l || l.any (· = ',') || decide (digits ≤ 8))

example : amtCandidateOk "50,000.00".data = true := by decide
example : amtCandidateOk "12".data = true := by decide
example : amtCandidateOk "1".data = false := by decide
example : amtCandidateOk "123456789".data = false := by decide
example : amtCandidateOk "(2,500.00)".data = true := by decide

/-!  `toNumber` of src/app.js, lines 258-266. -/

/-- The global replace `s.replace(/[₹$,]|rs\.?|inr/gi, '')`: scan left to
right, at each position trying the alternatives in order and deleting
the first match, otherwise keeping the character. -/
def stripCurrency : Nat → List Char → List Char
  | 0, l => l
  | _ + 1, [] => []
  | f + 1, c :: t =>
    if c = '₹' ∨ c = '$' ∨ c = ',' then stripCurrency f t
    else if litAtCI "rs.".data (c :: t) then stripCurrency f ((c :: t).drop 3)
    else if litAtCI "rs".data (c :: t) then stripCurrency f ((c :: t).drop 2)
    else if litAtCI "inr".data (c :: t) then stripCurrency f ((c :: t).drop 3)
    else c :: stripCurrency f t

/-- JavaScript `parseFloat` restricted to the alphabet `[0-9.\-]` that
survives the replaces in `toNumber` (no exponent or `Infinity` forms are
possible there): optional sign, then an integer part and/or a fraction,
ignoring any trailing garbage; `NaN` (no digits) is `none`. -/
def jsParseFloat (l : List Char) : Option ℚ :=
  let s0 := l.dropWhile jsIsSpace
  let neg := s0.head? = some '-'
  let s1 := if s0.head? = some '-' ∨ s0.head? = some '+' then s0.drop 1 else s0
  let ip := s1.takeWhile jsIsDigit
  let s2 := s1.drop ip.length
  let fp := if s2.head? = some '.' then (s2.drop 1).takeWhile jsIsDigit else []
  if ip.isEmpty ∧ fp.isEmpty then none
  else
    let v : ℚ := (digitsToNat ip : ℚ) + (digitsToNat fp : ℚ) / (10 : ℚ) ^ fp.length
    some (if neg then -v else v)

/-- `toNumber` of src/app.js, lines 258-266: strip currency markers,
separators and parentheses, parse, and apply the sign detected from a
leading `(` or `-`. -/
def toNumber (s : List Char) : Option ℚ :=
  if s = [] then none
  else
    let neg :=
      ((s.dropWhile jsIsSpace).head? = some '(') ∨
        ((s.dropWhile jsIsSpace).head? = some '-')
    let t1 := stripCurrency s.length s
    let t2 := t1.filter (fun c => ¬ (c = '(' ∨ c = ')'))
    let t3 := t2.filter (fun c => ¬ jsIsSpace c)
    let t4 := t3.filter (fun c => jsIsDigit c ∨ c = '.' ∨ c = '-')
    match jsParseFloat t4 with
    | none => none
    | some v => some (if neg then -|v| else v)

example : toNumber " 50,000.00".data = some 50000 := by decide
example : toNumber " (2,500.00)".data = some (-2500) := by decide
example : toNumber "-03".data = some (-3) := by decide
example : toNumber "rs.50".data = some 50 := by decide
example : toNumber "10.25".data = some (41 / 4) := by decide

/-!  Substring search and replacement (`indexOf`, `lastIndexOf`,
non-global `replace`). -/

/-- Whether `needle` occurs at the head of `hay`. -/
def subAt (needle hay : List Char) : Bool :=
  match needle, hay with
  | [], _ => true
  | _ :: _, [] => false
  | a :: nt, b :: ht => a = b && subAt nt ht

/-- `String.prototype.indexOf`: index of the first occurrence. -/
def indexOfSub (hay needle : List Char) : Option Nat :=
  match hay with
  | [] => if needle = [] then some 0 else none
  | _ :: t =>
    if subAt needle hay then some 0
    else (indexOfSub t needle).map (· + 1)

/-- `String.prototype.lastIndexOf`: index of the last occurrence. -/
def lastIndexOfSub (hay needle : List Char) : Option Nat :=
  match hay with
  | [] => if needle = [] then some 0 else none
  | _ :: t =>
    match lastIndexOfSub t needle with
    | some i => some (i + 1)
    | none => if subAt needle hay then some 0 else none

/-- Non-global `String.prototype.replace` with a plain-string pattern
and empty replacement: delete the first occurrence. -/
def removeFirstSub (hay needle : List Char) : List Char :=
  match hay with
  | [] => []
  | c :: t =>
    if subAt needle hay then hay.drop needle.length
    else c :: removeFirstSub t needle

example : indexOfSub "abcabc".data "bc".data = some 1 := by decide
example : lastIndexOfSub "abcabc".data "bc".data = some 4 := by decide
example : removeFirstSub "abcabc".data "bc".data = "aabc".data := by decide

/-!  Description cleanup (src/app.js line 335):
`description.replace(/\s{2,}/g, ' ').replace(/\s+(Cr|DR|Dr|CR)\b/g, '')`. -/

/-- `replace(/\s{2,}/g, ' ')`: each run of two or more `\s` characters
becomes a single space; isolated whitespace characters are kept. -/
def collapseWs : Nat → List Char → List Char
  | 0, l => l
  | _ + 1, [] => []
  | f + 1, c :: t =>
    if jsIsSpace c then
      if 1 ≤ spaceRunLen t then ' ' :: collapseWs f (t.dropWhile jsIsSpace)
      else c :: collapseWs f t
    else c :: collapseWs f t

/-- The marker alternatives `(Cr|DR|Dr|CR)` (case-sensitive), tried in
source order at the head of the string. -/
def crDrMarkerAt (s : List Char) : Bool :=
  subAt "Cr".data s || subAt "DR".data s || subAt "Dr".data s || subAt "CR".data s

/-- `replace(/\s+(Cr|DR|Dr|CR)\b/g, '')`: delete every whitespace run
that is directly followed by one of the marker words at a word
boundary. -/
def stripCrDr : Nat → List Char → List Char
  | 0, l => l
  | _ + 1, [] => []
  | f + 1, c :: t =>
    if jsIsSpace c then
      let run := spaceRunLen (c :: t)
      let rest := (c :: t).drop run
      if crDrMarkerAt rest ∧ ((rest.drop 2).head?.all (fun d => ¬ jsIsWordChar d)) then
        stripCrDr f (rest.drop 2)
      else c :: stripCrDr f t
    else c :: stripCrDr f t

def cleanDescription (l : List Char) : List Char :=
  let a := collapseWs l.length l
  stripCrDr a.length a

example : cleanDescription "SALARY CREDIT".data = "SALARY CREDIT".data := by decide
example : cleanDescription "UPI PAYMENT Cr today".data = "UPI PAYMENT today".data := by
  decide
example : cleanDescription "A    B  Dr".data = "A B".data := by decide

/-!  Keyword tables and the categorizer (src/app.js lines 228-256). -/

/-- `String.prototype.includes`: plain substring containment. -/
def includesSub (hay lit : List Char) : Bool :=
  match hay with
  | [] => lit.isEmpty
  | _ :: t => subAt lit hay || includesSub t lit

/-- Case-insensitive regex-literal containment: whether `lit` occurs in
`hay` at any position, ignoring case. -/
def containsCI (hay lit : List Char) : Bool :=
  match hay with
  | [] => lit.isEmpty
  | _ :: t => litAtCI lit hay || containsCI t lit

/-- Containment of `a` then `\s*` then `b` (case-insensitive): the gap
is a (possibly empty) maximal whitespace run, matching the greedy,
backtracking-free behaviour of `\s*` between two disjoint literals. -/
def containsGapStar (hay a b : List Char) : Bool :=
  match hay with
  | [] => false
  | _ :: t =>
    (litAtCI a hay &&
      (let r := hay.drop a.length
       litAtCI b (r.dropWhile jsIsSpace))) ||
    containsGapStar t a b

/-- Containment of `a` then `\s+` then `b` (case-insensitive). -/
def containsGapPlus (hay a b : List Char) : Bool :=
  match hay with
  | [] => false
  | _ :: t =>
    (litAtCI a hay &&
      (let r := hay.drop a.length
       decide (1 ≤ spaceRunLen r) && litAtCI b (r.dropWhile jsIsSpace))) ||
    containsGapPlus t a b

def anyCI (hay : List Char) (lits : List String) : Bool :=
  lits.any fun lit => containsCI hay lit.data

/-- `creditKeywords` of src/app.js line 228. -/
def creditKeywords : List String :=
  ["cr", "credit", "refund", "reversal", "interest", "salary", "deposit",
   "received"]

/-- `debitKeywords` of src/app.js line 229. -/
def debitKeywords : List String :=
  ["dr", "debit", "payment", "upi", "imps", "neft", "atm", "withdrawal", "pos",
   "charge", "fee", "rent", "emi"]

/-- The `categorize` closure of src/app.js lines 249-256: the ordered
`categoryMap` rules (lines 232-246), first match wins, then the UPI
fallback to utilities, else `"other"`. -/
def categorize (desc : List Char) : String :=
  if anyCI desc ["salary", "payroll", "wages"] then "salary"
  else if containsCI desc "rent".data then "rent"
  else if containsCI desc "atm".data ∨
      containsGapStar desc "cash".data "withdrawal".data then "atm-withdrawal"
  else if anyCI desc ["upi", "bill", "electricity", "gas", "water", "mobile",
      "dth", "recharge"] then "utilities"
  else if anyCI desc ["grocery", "groceries", "supermarket", "dmart"] ∨
      containsGapStar desc "big".data "bazaar".data ∨
      containsGapStar desc "more".data "supermarket".data then "groceries"
  else if anyCI desc ["fuel", "petrol", "diesel", "shell", "hpcl", "bpcl",
      "iocl"] then "fuel"
  else if anyCI desc ["emi", "loan"] then "loan"
  else if containsCI desc "insurance".data then "insurance"
  else if anyCI desc ["amazon", "flipkart", "myntra", "ajio", "nykaa",
      "shopping", "pos"] then "shopping"
  else if anyCI desc ["zomato", "swiggy", "uber", "ola", "foodpanda", "eat",
      "restaurant", "coffee"] then "food"
  else if containsCI desc "interest".data then "interest"
  else if anyCI desc ["refund", "reversal"] then "refund"
  else if anyCI desc ["neft", "imps", "rtgs", "transfer"] ∨
      containsGapPlus desc "to".data "acct".data ∨
      containsGapPlus desc "from".data "acct".data then "transfer"
  else if containsCI desc "upi".data then "utilities"
  else "other"

example : categorize "SALARY CREDIT".data = "salary" := by decide
example : categorize "ATM WITHDRAWAL".data = "atm-withdrawal" := by decide
example : categorize "FEE".data = "other" := by decide
example : categorize "Cash  Withdrawal".data = "atm-withdrawal" := by decide
example : categorize "paid to acct 12".data = "transfer" := by decide

/-- The test of the regex `-\s*\d` against `amtRaw`, src/app.js line 340. -/
def minusThenDigit : List Char → Bool
  | [] => false
  | c :: t =>
    (c = '-' && ((t.dropWhile jsIsSpace).head?.any jsIsDigit)) || minusThenDigit t

/-- First `if` of the type-inference block (src/app.js lines 340-342):
the value of `type` after the debit check (`null` is `none`). -/
def inferTypeDebit (line amtRaw : List Char) : Option String :=
  if amtRaw.any (fun c => c = '(' ∨ c = ')') ∨ minusThenDigit amtRaw ∨
      debitKeywords.any (fun k => includesSub (jsToLower line) k.data) then
    some "debit"
  else none

/-- Second `if` of the type-inference block (src/app.js lines 343-351):
the value of `type` after the credit check. -/
def inferTypeCredit (line amtRaw : List Char) (amount : ℚ) : Option String :=
  if amtRaw.any (· = '+') ∨
      creditKeywords.any (fun k => includesSub (jsToLower line) k.data) then
    if inferTypeDebit line amtRaw = some "debit" then
      if amount < 0 then some "debit" else some "credit"
    else some "credit"
  else inferTypeDebit line amtRaw

/-- The type-inference block of src/app.js lines 338-356, including the
default heuristic of lines 352-356. -/
def inferType (line amtRaw : List Char) (amount : ℚ) : String :=
  match inferTypeCredit line amtRaw amount with
  | some t => t
  | none =>
    if anyCI line ["refund", "reversal", "interest", "salary", "credited"] then
      "credit"
    else "debit"

theorem inferTypeDebit_cases (line amtRaw : List Char) :
    inferTypeDebit line amtRaw = none ∨ inferTypeDebit line amtRaw = some "debit" := by
  unfold inferTypeDebit
  split
  · exact Or.inr rfl
  · exact Or.inl rfl

theorem inferTypeCredit_cases (line amtRaw : List Char) (amount : ℚ) :
    inferTypeCredit line amtRaw amount = none ∨
      inferTypeCredit line amtRaw amount = some "credit" ∨
      inferTypeCredit line amtRaw amount = some "debit" := by
  unfold inferTypeCredit
  rcases inferTypeDebit_cases line amtRaw with h | h <;> rw [h] <;> split <;>
    simp <;> split <;> simp <;> exact le_or_lt 0 amount

theorem inferType_cases (line amtRaw : List Char) (amount : ℚ) :
    inferType line amtRaw amount = "credit" ∨ inferType line amtRaw amount = "debit" := by
  unfold inferType
  rcases inferTypeCredit_cases line amtRaw amount with h | h | h <;> rw [h] <;>
    dsimp only
  · split
    · exact Or.inl rfl
    · exact Or.inr rfl
  · exact Or.inl rfl
  · exact Or.inr rfl

/-- `confidenceScore` of src/app.js lines 269-277. -/
def confidenceScore (hasDate hasAmount hasType hasCategory : Bool)
    (descLen : Nat) : ℚ :=
  let s0 : ℚ := 0
  let s1 := if hasDate then s0 + 35 / 100 else s0
  let s2 := if hasAmount then s1 + 35 / 100 else s1
  let s3 := if hasType then s2 + 15 / 100 else s2
  let s4 := if hasCategory then s3 + 1 / 10 else s3
  let s5 := if 3 < descLen then s4 + 5 / 100 else s4
  min 1 s5

/-!  The `Transaction` record and the per-line parse
(src/app.js lines 280-387).  The wall-clock field `createdAt` is
omitted.  -/

structure Transaction where
  statementId : String
  date : String
  description : String
  amount : ℚ
  type : String
  category : String
  confidence : ℚ
  rawLine : String
deriving DecidableEq, Repr

/-- `String.prototype.substring(a, b)`: swaps its endpoints when
`a > b`, and clamps to the string length. -/
def jsSubstring (l : List Char) (a b : Nat) : List Char :=
  (l.drop (min a b)).take (max a b - min a b)

/-- Lines 324-335 of src/app.js: the description between the date and
the chosen amount token (or the line with both removed), trimmed, runs
of whitespace collapsed, `Cr`/`DR`/`Dr`/`CR` markers stripped. -/
def buildDescription (line dateStrRaw amtRaw : List Char) : List Char :=
  let d0 :=
    match indexOfSub line dateStrRaw, lastIndexOfSub line amtRaw with
    | some dateIdx, some amtIdx =>
      if amtIdx > dateIdx then
        jsTrim (jsSubstring line (dateIdx + dateStrRaw.length) amtIdx)
      else jsTrim (removeFirstSub (removeFirstSub line dateStrRaw) amtRaw)
    | _, _ => jsTrim (removeFirstSub (removeFirstSub line dateStrRaw) amtRaw)
  cleanDescription d0

/-- Lines 337-380 of src/app.js: assemble the transaction from the
already-validated date and amount. -/
def mkTx (sid : String) (line dateStrRaw : List Char) (dateISO : String)
    (amtRaw : List Char) (amount : ℚ) : Transaction :=
  let description := buildDescription line dateStrRaw amtRaw
  let type := inferType line amtRaw amount
  let category := categorize (if description.isEmpty then line else description)
  let conf := confidenceScore true true (type ≠ "")
    (category ≠ "" ∧ category ≠ "other") description.length
  { statementId := sid
    date := dateISO
    description :=
      if description.isEmpty then "(no description)" else description.asString
    amount := |amount|
    type := type
    category := category
    confidence := conf
    rawLine := line.asString }

/-- One iteration of the `for (const line of lines)` loop of
`parseTransactions` (src/app.js lines 280-387): `none` is a skip.  Each
early `continue` of the source is a `none` here; the `catch` branch is
unreachable in this total model (nothing in the loop body throws). -/
def parseLine (sid : String) (line : List Char) : Option Transaction :=
  match findDate line with
  | none => none
  | some dateStrRaw =>
    match parseDateStr dateStrRaw with
    | none => none
    | some dateISO =>
      let amtMatches := (amtScan line).filter amtCandidateOk
      match amtMatches.getLast? with
      | none => none
      | some amtRaw =>
        match toNumber amtRaw with
        | none => none
        | some amount => some (mkTx sid line dateStrRaw dateISO amtRaw amount)

/-- The non-empty trimmed lines:
`rawText.split('\n').map(l => l.trim()).filter(Boolean)`. -/
def jsLines (rawText : List Char) : List (List Char) :=
  ((splitNl rawText).map jsTrim).filter (fun l => ¬ l.isEmpty)

/-- `ParsingSummary` (src/app.js lines 206-211). -/
structure ParsingSummary where
  linesScanned : Nat
  transactionsExtracted : Nat
  skippedLines : Nat
  examplesOfSkipped : List String
deriving DecidableEq, Repr

structure ParseResult where
  transactions : List Transaction
  parsingSummary : ParsingSummary
deriving DecidableEq, Repr

/-- The main loop of `parseTransactions`, folded into (transactions,
skipped count, skipped examples); `exCount` is the number of examples
already collected (the source caps them at 5). -/
def parseLoop (sid : String) : List (List Char) → Nat →
    List Transaction × Nat × List (List Char)
  | [], _ => ([], 0, [])
  | l :: ls, exCount =>
    match parseLine sid l with
    | some tx =>
      let r := parseLoop sid ls exCount
      (tx :: r.1, r.2.1, r.2.2)
    | none =>
      let r := parseLoop sid ls (if exCount < 5 then exCount + 1 else exCount)
      (r.1, r.2.1 + 1, if exCount < 5 then l :: r.2.2 else r.2.2)

/-- `parseTransactions` of src/app.js, lines 203-393. -/
def parseTransactions (rawText statementId : String) : ParseResult :=
  let lines := jsLines rawText.data
  let r := parseLoop statementId lines 0
  { transactions := r.1
    parsingSummary :=
      { linesScanned := lines.length
        transactionsExtracted := r.1.length
        skippedLines := r.2.1
        examplesOfSkipped := r.2.2.map List.asString } }

example :
    (parseTransactions "12/01/2024 SALARY CREDIT 50,000.00" "s1").transactions.map
      (fun t => (t.date, t.type, t.category, t.amount)) =
      [("2024-01-12", "credit", "salary", (50000 : ℚ))] := by decide

example :
    (parseTransactions "2024-03-05 ATM WITHDRAWAL (2,500.00)" "s1").transactions.map
      (fun t => (t.date, t.type, t.category, t.amount)) =
      [("2024-03-05", "debit", "atm-withdrawal", (2500 : ℚ))] := by decide

example :
    (parseTransactions "Opening Balance 10000.00" "s1").parsingSummary =
      { linesScanned := 1, transactionsExtracted := 0, skippedLines := 1,
        examplesOfSkipped := ["Opening Balance 10000.00"] } := by decide

example :
    (parseTransactions "1/2/999 FEE 10.00" "s1").transactions.map
      (fun t => (t.date, t.type, t.amount)) =
      [("999-02-01", "debit", (10 : ℚ))] := by decide

example :
    (parseTransactions "12 constructor 2024" "s1").transactions.map
      (fun t => (t.date, t.amount)) =
      [("2024-" ++ objectCtorStr ++ "-12", (202 : ℚ))] := by decide

/-- Invariant of the main loop: every processed line is counted exactly
once, as a transaction or as a skip. -/
theorem parseLoop_counts (sid : String) (ls : List (List Char)) :
    ∀ k : Nat, (parseLoop sid ls k).2.1 + (parseLoop sid ls k).1.length = ls.length := by
  induction ls with
  | nil => intro k; simp [parseLoop]
  | cons l t ih =>
    intro k
    cases h : parseLine sid l with
    | some tx =>
      have := ih k
      simp only [parseLoop, h, List.length_cons]
      omega
    | none =>
      have := ih (if k < 5 then k + 1 else k)
      simp only [parseLoop, h, List.length_cons]
      omega

/-- C1. For the single input line `12/01/2024 SALARY CREDIT 50,000.00`,
the parser produces exactly one transaction, with date `2024-01-12`,
type `credit`, category `salary` and amount 50000.00. -/
theorem scenarioA_salary_credit :
    (parseTransactions "12/01/2024 SALARY CREDIT 50,000.00" "stmt").transactions.map
      (fun t => (t.date, t.type, t.category, t.amount)) =
      [("2024-01-12", "credit", "salary", (50000 : ℚ))] := by decide

/-- C6. For the single input line `2024-03-05 ATM WITHDRAWAL (2,500.00)`,
the parser produces exactly one transaction, with date `2024-03-05`,
type `debit` (the parentheses mark a negative amount), category
`atm-withdrawal` and amount 2500.00 stored as an absolute value. -/
theorem scenarioB_atm_debit :
    (parseTransactions "2024-03-05 ATM WITHDRAWAL (2,500.00)" "stmt").transactions.map
      (fun t => (t.date, t.type, t.category, t.amount)) =
      [("2024-03-05", "debit", "atm-withdrawal", (2500 : ℚ))] := by decide

/-- C2. For every string input, `parseTransactions` is a total function
(the Lean translation is structurally recursive, modelling the source's
never-throwing loop) and returns a transaction list together with a
summary whose `linesScanned` counts the non-empty trimmed lines. -/
theorem parseTransactions_total (rawText sid : String) :
    ∃ txs summary, parseTransactions rawText sid = ⟨txs, summary⟩ ∧
      summary.linesScanned = (jsLines rawText.data).length :=
  ⟨_, _, rfl, rfl⟩

/-- C3. For every string input, the summary satisfies
`transactionsExtracted = transactions.length` and
`skippedLines + transactions.length = linesScanned`: every non-empty
trimmed line is counted exactly once across the two buckets. -/
theorem parseTransactions_summary_counts (rawText sid : String) :
    (parseTransactions rawText sid).parsingSummary.transactionsExtracted =
        (parseTransactions rawText sid).transactions.length ∧
      (parseTransactions rawText sid).parsingSummary.skippedLines +
          (parseTransactions rawText sid).transactions.length =
        (parseTransactions rawText sid).parsingSummary.linesScanned := by
  refine ⟨rfl, ?_⟩
  exact parseLoop_counts sid (jsLines rawText.data) 0

/-!  Shape of every date string produced by `parseDateStr`, and the
invariants of every parsed transaction (claims C4 and C7). -/

/-- Shape of every date string `parseDateStr` can produce: an unpadded
year, then either a zero-padded in-range month or the string rendering
of the prototype-inherited `Object` constructor, then a zero-padded
in-range day. -/
def parsedDateShape (s : String) : Prop :=
  ∃ y d, 1 ≤ d ∧ d ≤ 31 ∧
    ((∃ mo, 1 ≤ mo ∧ mo ≤ 12 ∧ s = mkDateStr y mo d) ∨
      s = Nat.repr y ++ "-" ++ objectCtorStr ++ "-" ++ pad2 d)

theorem parseDateStrC_shape {s : List Char} {out : String}
    (h : parseDateStrC s = some out) : parsedDateShape out := by
  unfold parseDateStrC at h
  cases heq : dateShape3 s with
  | none => rw [heq] at h; simp at h
  | some v =>
    obtain ⟨d, name, y0⟩ := v
    rw [heq] at h
    dsimp only at h
    cases hmv : monthMapGet ((stripTrailingDot (jsToLower name)).asString) with
    | none => rw [hmv] at h; simp at h
    | some mv =>
      rw [hmv] at h
      dsimp only at h
      by_cases hd : 1 ≤ d ∧ d ≤ 31
      · rw [if_pos hd] at h
        have hout := ((Option.some.injEq _ _).mp h).symm
        cases mv with
        | inl mo =>
          obtain ⟨p, hp, hv⟩ := lookupMonth_mem (monthMapGet_inl hmv)
          have hrange := monthMap_range p hp
          refine ⟨if y0 < 100 then 2000 + y0 else y0, d, hd.1, hd.2,
            Or.inl ⟨mo, by omega, by omega, ?_⟩⟩
          simpa [pad2Js, mkDateStr] using hout
        | inr sv =>
          refine ⟨if y0 < 100 then 2000 + y0 else y0, d, hd.1, hd.2, Or.inr ?_⟩
          simpa [pad2Js, monthMapGet_inr hmv] using hout
      · rw [if_neg hd] at h; simp at h

theorem parseDateStrB_shape {s : List Char} {out : String}
    (h : parseDateStrB s = some out) : parsedDateShape out := by
  unfold parseDateStrB at h
  cases heq : dateShape2 s with
  | none => rw [heq] at h; exact parseDateStrC_shape h
  | some v =>
    obtain ⟨d, mo, y0⟩ := v
    rw [heq] at h
    dsimp only at h
    by_cases hr : 1 ≤ mo ∧ mo ≤ 12 ∧ 1 ≤ d ∧ d ≤ 31
    · rw [if_pos hr] at h
      exact ⟨_, d, hr.2.2.1, hr.2.2.2,
        Or.inl ⟨mo, hr.1, hr.2.1, ((Option.some.injEq _ _).mp h).symm⟩⟩
    · rw [if_neg hr] at h
      exact parseDateStrC_shape h

theorem parseDateStr_shape {s : List Char} {out : String}
    (h : parseDateStr s = some out) : parsedDateShape out := by
  unfold parseDateStr at h
  dsimp only at h
  cases heq : dateShape1 (jsTrim s) with
  | none => rw [heq] at h; exact parseDateStrB_shape h
  | some v =>
    obtain ⟨y, mo, d⟩ := v
    rw [heq] at h
    dsimp only at h
    by_cases hr : 1 ≤ mo ∧ mo ≤ 12 ∧ 1 ≤ d ∧ d ≤ 31
    · rw [if_pos hr] at h
      exact ⟨y, d, hr.2.2.1, hr.2.2.2,
        Or.inl ⟨mo, hr.1, hr.2.1, ((Option.some.injEq _ _).mp h).symm⟩⟩
    · rw [if_neg hr] at h
      exact parseDateStrB_shape h

theorem confidenceScore_nonneg (hd ha ht hc : Bool) (n : Nat) :
    0 ≤ confidenceScore hd ha ht hc n := by
  unfold confidenceScore
  refine le_min (by norm_num) ?_
  dsimp only
  split <;> split <;> split <;> split <;> split <;> norm_num

theorem confidenceScore_le_one (hd ha ht hc : Bool) (n : Nat) :
    confidenceScore hd ha ht hc n ≤ 1 := by
  unfold confidenceScore
  exact min_le_left _ _

theorem confidenceScore_ge_firm (hc : Bool) (n : Nat) :
    7 / 10 ≤ confidenceScore true true true hc n := by
  unfold confidenceScore
  refine le_min (by norm_num) ?_
  dsimp only
  split <;> split <;> norm_num

theorem parseLine_some {sid : String} {l : List Char} {tx : Transaction}
    (h : parseLine sid l = some tx) :
    ∃ dateStrRaw dateISO amtRaw amount,
      parseDateStr dateStrRaw = some dateISO ∧
      tx = mkTx sid l dateStrRaw dateISO amtRaw amount := by
  unfold parseLine at h
  cases hfd : findDate l with
  | none => rw [hfd] at h; simp at h
  | some dateStrRaw =>
    rw [hfd] at h
    dsimp only at h
    cases hpd : parseDateStr dateStrRaw with
    | none => rw [hpd] at h; simp at h
    | some dateISO =>
      rw [hpd] at h
      dsimp only at h
      cases hlast : (List.filter amtCandidateOk (amtScan l)).getLast? with
      | none => rw [hlast] at h; simp at h
      | some amtRaw =>
        rw [hlast] at h
        dsimp only at h
        cases htn : toNumber amtRaw with
        | none => rw [htn] at h; simp at h
        | some amount =>
          rw [htn] at h
          exact ⟨dateStrRaw, dateISO, amtRaw, amount, hpd,
            ((Option.some.injEq _ _).mp h).symm⟩

theorem parseLoop_mem {sid : String} {ls : List (List Char)} {tx : Transaction} :
    ∀ {k : Nat}, tx ∈ (parseLoop sid ls k).1 → ∃ l ∈ ls, parseLine sid l = some tx := by
  induction ls with
  | nil => intro k h; simp [parseLoop] at h
  | cons l t ih =>
    intro k h
    cases heq : parseLine sid l with
    | some tx0 =>
      rw [parseLoop, heq] at h
      rcases List.mem_cons.mp h with h1 | h1
      · exact ⟨l, List.mem_cons_self l t, by rw [heq, h1]⟩
      · obtain ⟨l2, hl2, hp⟩ := ih h1
        exact ⟨l2, List.mem_cons_of_mem l hl2, hp⟩
    | none =>
      rw [parseLoop, heq] at h
      obtain ⟨l2, hl2, hp⟩ := ih h
      exact ⟨l2, List.mem_cons_of_mem l hl2, hp⟩

theorem mkTx_invariants (sid : String) (line dateStrRaw : List Char)
    (dateISO : String) (amtRaw : List Char) (amount : ℚ)
    (hd : parseDateStr dateStrRaw = some dateISO) :
    0 ≤ (mkTx sid line dateStrRaw dateISO amtRaw amount).amount ∧
      0 ≤ (mkTx sid line dateStrRaw dateISO amtRaw amount).confidence ∧
      (mkTx sid line dateStrRaw dateISO amtRaw amount).confidence ≤ 1 ∧
      ((mkTx sid line dateStrRaw dateISO amtRaw amount).type = "credit" ∨
        (mkTx sid line dateStrRaw dateISO amtRaw amount).type = "debit") ∧
      parsedDateShape (mkTx sid line dateStrRaw dateISO amtRaw amount).date := by
  refine ⟨abs_nonneg amount, confidenceScore_nonneg _ _ _ _ _,
    confidenceScore_le_one _ _ _ _ _, inferType_cases _ _ _, ?_⟩
  exact parseDateStr_shape hd

theorem mkTx_confidence_ge (sid : String) (line dateStrRaw : List Char)
    (dateISO : String) (amtRaw : List Char) (amount : ℚ) :
    7 / 10 ≤ (mkTx sid line dateStrRaw dateISO amtRaw amount).confidence := by
  unfold mkTx
  dsimp only
  rcases inferType_cases line amtRaw amount with h | h <;> rw [h] <;>
    exact confidenceScore_ge_firm _ _

/-- The date format asserted by the specification: a literal
`YYYY-MM-DD` string (four digit year), month in [1,12], day in [1,31].
This definition follows the specification's words, for comparison with
what the code produces. -/
def specDateFormat (s : String) : Bool :=
  match s.data with
  | [y1, y2, y3, y4, '-', m1, m2, '-', d1, d2] =>
    [y1, y2, y3, y4, m1, m2, d1, d2].all jsIsDigit &&
      decide (1 ≤ digitsToNat [m1, m2] ∧ digitsToNat [m1, m2] ≤ 12) &&
      decide (1 ≤ digitsToNat [d1, d2] ∧ digitsToNat [d1, d2] ≤ 31)
  | _ => false

example : specDateFormat "2024-03-05" = true := by decide
example : specDateFormat "999-02-01" = false := by decide

/-- C4, counterexample.  On the line `1/2/999 FEE 10.00` the parser
produces a transaction whose date `999-02-01` has a three-digit year
(the source renders the year without padding and the date regexes accept
two- to four-digit years, adjusting only those below 100), so the
claimed `YYYY-MM-DD` format is violated. -/
theorem parser_date_format_cex :
    ∃ tx ∈ (parseTransactions "1/2/999 FEE 10.00" "stmt").transactions,
      specDateFormat tx.date = false := by decide

/-- C4 (amended).  Every transaction produced by the parser satisfies:
amount ≥ 0, confidence ∈ [0,1], type ∈ {credit, debit}, and the date
has the shape `Y-M-DD`, where `Y` is the parsed year rendered without
zero padding (a four-digit `YYYY` only when the input year had two or
four digits), `DD` is a zero-padded day ∈ [1,31], and `M` is either a
zero-padded month ∈ [1,12] or — when the day + month-name date shape
was matched with the name `constructor` — the string rendering of the
`Object` constructor inherited through the JavaScript prototype
chain. -/
theorem parser_invariants (rawText sid : String) :
    ∀ tx ∈ (parseTransactions rawText sid).transactions,
      0 ≤ tx.amount ∧ 0 ≤ tx.confidence ∧ tx.confidence ≤ 1 ∧
      (tx.type = "credit" ∨ tx.type = "debit") ∧
      parsedDateShape tx.date := by
  intro tx htx
  have htx2 : tx ∈ (parseLoop sid (jsLines rawText.data) 0).1 := htx
  obtain ⟨l, _, hp⟩ := parseLoop_mem htx2
  obtain ⟨dRaw, dISO, aRaw, amt, hpd, htx3⟩ := parseLine_some hp
  subst htx3
  exact mkTx_invariants sid l dRaw dISO aRaw amt hpd

def txScenarioB : Transaction :=
  { statementId := "stmt", date := "2024-03-05", description := "ATM WITHDRAWAL",
    amount := 2500, type := "debit", category := "atm-withdrawal",
    confidence := 1, rawLine := "2024-03-05 ATM WITHDRAWAL (2,500.00)" }

theorem parser_invariants_witness :
    txScenarioB ∈
        (parseTransactions "2024-03-05 ATM WITHDRAWAL (2,500.00)" "stmt").transactions ∧
      (0 ≤ txScenarioB.amount ∧ 0 ≤ txScenarioB.confidence ∧
        txScenarioB.confidence ≤ 1 ∧
        (txScenarioB.type = "credit" ∨ txScenarioB.type = "debit") ∧
        parsedDateShape txScenarioB.date) :=
  ⟨by decide, parser_invariants "2024-03-05 ATM WITHDRAWAL (2,500.00)" "stmt"
    txScenarioB (by decide)⟩

/-- C7.  Every transaction produced by the parser has confidence at
least 0.70: a date and an amount (0.35 each) are preconditions for the
transaction to be created, and the always-assigned type adds 0.15 more. -/
theorem parser_confidence_ge (rawText sid : String) :
    ∀ tx ∈ (parseTransactions rawText sid).transactions, 7 / 10 ≤ tx.confidence := by
  intro tx htx
  have htx2 : tx ∈ (parseLoop sid (jsLines rawText.data) 0).1 := htx
  obtain ⟨l, _, hp⟩ := parseLoop_mem htx2
  obtain ⟨dRaw, dISO, aRaw, amt, _, htx3⟩ := parseLine_some hp
  subst htx3
  exact mkTx_confidence_ge sid l dRaw dISO aRaw amt

def txScenarioA : Transaction :=
  { statementId := "stmt", date := "2024-01-12", description := "SALARY CREDIT",
    amount := 50000, type := "credit", category := "salary",
    confidence := 1, rawLine := "12/01/2024 SALARY CREDIT 50,000.00" }

theorem parser_confidence_ge_witness :
    txScenarioA ∈
        (parseTransactions "12/01/2024 SALARY CREDIT 50,000.00" "stmt").transactions ∧
      7 / 10 ≤ txScenarioA.confidence :=
  ⟨by decide, parser_confidence_ge "12/01/2024 SALARY CREDIT 50,000.00" "stmt"
    txScenarioA (by decide)⟩

/-!  `computeAnalytics` of src/app.js, lines 395-457.  The single pass
over the transactions (lines 404-423) mutates five accumulators; the
fold below threads them through an `AccState`, with one step function
per accumulator, composed in source order. -/

structure ExpenseEntry where
  amount : ℚ
  description : String
  date : String
deriving DecidableEq, Repr

structure MonthAgg where
  income : ℚ
  expense : ℚ
deriving DecidableEq, Repr

structure MonthTrend where
  month : String
  income : ℚ
  expense : ℚ
deriving DecidableEq, Repr

structure AccState where
  income : ℚ
  expense : ℚ
  byCategory : List (String × ℚ)
  expenses : List ExpenseEntry
  byMonth : List (String × MonthAgg)
deriving Repr

/-- `Number.EPSILON`. -/
def epsJs : ℚ := 1 / 2 ^ 52

/-- `Math.round`: nearest integer, ties towards positive infinity. -/
def jsMathRound (x : ℚ) : ℤ := ⌊x + 1 / 2⌋

/-- `round2` of src/app.js lines 449-451:
`Math.round((n + Number.EPSILON) * 100) / 100`. -/
def round2 (n : ℚ) : ℚ := (jsMathRound ((n + epsJs) * 100) : ℚ) / 100

/-- `objectMapRound2` of src/app.js lines 453-457 (JavaScript objects
with string keys preserve insertion order, modelled as an association
list). -/
def objectMapRound2 (l : List (String × ℚ)) : List (String × ℚ) :=
  l.map fun p => (p.1, round2 p.2)

/-- `byCategory[cat] = (byCategory[cat] || 0) + amt` (line 410): update
in place if the key exists, else append. -/
def bumpCategory : List (String × ℚ) → String → ℚ → List (String × ℚ)
  | [], k, v => [(k, v)]
  | (k0, v0) :: t, k, v =>
    if k0 = k then (k0, v0 + v) :: t else (k0, v0) :: bumpCategory t k v

/-- Lines 418-421: insert `{income: 0, expense: 0}` if the month key is
absent, then update the aggregate in place (JavaScript `Map` preserves
insertion order). -/
def bumpMonth : List (String × MonthAgg) → String → (MonthAgg → MonthAgg) →
    List (String × MonthAgg)
  | [], k, f => [(k, f ⟨0, 0⟩)]
  | (k0, a) :: t, k, f =>
    if k0 = k then (k0, f a) :: t else (k0, a) :: bumpMonth t k f

/-- `t.category || 'other'` (line 409). -/
def catOf (t : Transaction) : String :=
  if t.category = "" then "other" else t.category

/-- `(t.date || '').slice(0, 7)` (line 416). -/
def monthKey (t : Transaction) : String := (t.date.data.take 7).asString

/-- The month-aggregate update of lines 420-421. -/
def monthUpd (t : Transaction) (a : MonthAgg) : MonthAgg :=
  if t.type = "credit" then { a with income := a.income + t.amount }
  else { a with expense := a.expense + t.amount }

/-- Lines 405-407: income/expense sums. -/
def stepSums (acc : AccState) (t : Transaction) : AccState :=
  if t.type = "credit" then { acc with income := acc.income + t.amount }
  else { acc with expense := acc.expense + t.amount }

/-- Lines 409-410: per-category sums. -/
def stepCategory (acc : AccState) (t : Transaction) : AccState :=
  { acc with byCategory := bumpCategory acc.byCategory (catOf t) t.amount }

/-- Lines 412-414: collect debit transactions for the top-5 pass. -/
def stepExpenses (acc : AccState) (t : Transaction) : AccState :=
  if t.type = "debit" then
    { acc with expenses := acc.expenses ++ [⟨t.amount, t.description, t.date⟩] }
  else acc

/-- Lines 416-422: month-keyed accumulation, skipped when the key is
empty. -/
def stepMonth (acc : AccState) (t : Transaction) : AccState :=
  if monthKey t ≠ "" then
    { acc with byMonth := bumpMonth acc.byMonth (monthKey t) (monthUpd t) }
  else acc

/-- The body of `for (const t of transactions)` (lines 404-423). -/
def analyticsStep (acc : AccState) (t : Transaction) : AccState :=
  stepMonth (stepExpenses (stepCategory (stepSums acc t) t) t) t

def analyticsInit : AccState := ⟨0, 0, [], [], []⟩

def analyticsPass (txs : List Transaction) : AccState :=
  txs.foldl analyticsStep analyticsInit

/-- Stable insertion for the descending sort
`expenses.sort((a, b) => b.amount - a.amount)` (line 425):
`Array.prototype.sort` is stable, so an element goes before every
element of the already-sorted later suffix whose amount is not
greater. -/
def insertExpDesc (x : ExpenseEntry) : List ExpenseEntry → List ExpenseEntry
  | [] => [x]
  | y :: ys => if y.amount ≤ x.amount then x :: y :: ys else y :: insertExpDesc x ys

def sortExpDesc : List ExpenseEntry → List ExpenseEntry
  | [] => []
  | x :: xs => insertExpDesc x (sortExpDesc xs)

/-- Stable insertion for the ascending month sort
`.sort((a, b) => a[0].localeCompare(b[0]))` (line 427); `localeCompare`
on the zero-padded keys is modelled as code-point lexicographic order. -/
def insertMonthAsc (x : String × MonthAgg) :
    List (String × MonthAgg) → List (String × MonthAgg)
  | [] => [x]
  | y :: ys => if x.1 < y.1 then x :: y :: ys else y :: insertMonthAsc x ys

def sortMonthAsc : List (String × MonthAgg) → List (String × MonthAgg)
  | [] => []
  | x :: xs => insertMonthAsc x (sortMonthAsc xs)

structure AnalyticsReport where
  statementId : String
  totalIncome : ℚ
  totalExpense : ℚ
  net : ℚ
  byCategory : List (String × ℚ)
  top5Expenses : List ExpenseEntry
  monthlyTrends : List MonthTrend
  transactionCount : Nat
  avgTransactionAmount : ℚ
  parsingSummary : ParsingSummary
deriving Repr

/-- `computeAnalytics` of src/app.js, lines 395-447. -/
def computeAnalytics (statementId : String) (transactions : List Transaction)
    (parsingSummary : ParsingSummary) : AnalyticsReport :=
  let acc := analyticsPass transactions
  let top5Expenses := (sortExpDesc acc.expenses).take 5
  let monthlyTrends := (sortMonthAsc acc.byMonth).map
    fun p => MonthTrend.mk p.1 (round2 p.2.income) (round2 p.2.expense)
  let transactionCount := transactions.length
  let avgTransactionAmount :=
    if transactionCount ≠ 0 then
      round2 ((transactions.foldl (fun s t => s + t.amount) 0) / transactionCount)
    else 0
  { statementId := statementId
    totalIncome := round2 acc.income
    totalExpense := round2 acc.expense
    net := round2 (acc.income - acc.expense)
    byCategory := objectMapRound2 acc.byCategory
    top5Expenses := top5Expenses.map fun e => ⟨round2 e.amount, e.description, e.date⟩
    monthlyTrends := monthlyTrends
    transactionCount := transactionCount
    avgTransactionAmount := avgTransactionAmount
    parsingSummary := parsingSummary }

def psEmpty : ParsingSummary :=
  { linesScanned := 0, transactionsExtracted := 0, skippedLines := 0,
    examplesOfSkipped := [] }

example :
    (computeAnalytics "s"
      [{ statementId := "s", date := "2024-01-01", description := "A", amount := 100,
         type := "credit", category := "other", confidence := 1, rawLine := "A" },
       { statementId := "s", date := "2024-01-02", description := "B", amount := 40,
         type := "debit", category := "other", confidence := 1, rawLine := "B" }]
      psEmpty).totalIncome = 100 := by decide

example :
    (computeAnalytics "s"
      [{ statementId := "s", date := "2024-01-01", description := "A", amount := 100,
         type := "credit", category := "other", confidence := 1, rawLine := "A" },
       { statementId := "s", date := "2024-01-02", description := "B", amount := 40,
         type := "debit", category := "other", confidence := 1, rawLine := "B" }]
      psEmpty).avgTransactionAmount = 70 := by decide

example : round2 (mkRat (-1) 200) = 0 := by decide
example : round2 (mkRat 1 200) = mkRat 1 100 := by decide
example : round2 (mkRat 2345 1000) = mkRat 235 100 := by decide

/-!  Claim C5: the rounding discipline of the analytics outputs. -/

/-- An exact multiple of 0.01. -/
def isCent (q : ℚ) : Prop := ∃ k : ℤ, q = (k : ℚ) / 100

theorem round2_isCent (q : ℚ) : isCent (round2 q) := ⟨_, rfl⟩

/-- At every exact tie `(2k+1)/200`, `round2` rounds towards positive
infinity (the `Math.round` convention): the result is `(k+1)/100`.  For
positive ties this is away from zero, for negative ties towards zero. -/
theorem round2_tie (k : ℤ) :
    round2 ((2 * (k : ℚ) + 1) / 200) = ((k : ℚ) + 1) / 100 := by
  unfold round2 jsMathRound epsJs
  have h1 : ((2 * (k : ℚ) + 1) / 200 + 1 / 2 ^ 52) * 100 + 1 / 2 =
      100 / 2 ^ 52 + ((k + 1 : ℤ) : ℚ) := by push_cast; ring
  rw [h1, Int.floor_add_int]
  have h2 : ⌊(100 : ℚ) / 2 ^ 52⌋ = 0 := by
    rw [Int.floor_eq_zero_iff]
    constructor
    · norm_num
    · norm_num
  rw [h2]
  push_cast
  ring

theorem round2_mono {a b : ℚ} (h : a ≤ b) : round2 a ≤ round2 b := by
  unfold round2 jsMathRound
  have h1 : (a + epsJs) * 100 + 1 / 2 ≤ (b + epsJs) * 100 + 1 / 2 := by linarith
  have h2 : ((⌊(a + epsJs) * 100 + 1 / 2⌋ : ℤ) : ℚ) ≤
      ((⌊(b + epsJs) * 100 + 1 / 2⌋ : ℤ) : ℚ) := by
    exact_mod_cast Int.floor_le_floor h1
  exact (div_le_div_iff_of_pos_right (by norm_num : (0 : ℚ) < 100)).mpr h2

/-- Every monetary field of an `AnalyticsReport` is an exact multiple of
0.01. -/
def centOutputs (r : AnalyticsReport) : Prop :=
  isCent r.totalIncome ∧ isCent r.totalExpense ∧ isCent r.net ∧
    (∀ p ∈ r.byCategory, isCent p.2) ∧
    (∀ e ∈ r.top5Expenses, isCent e.amount) ∧
    (∀ m ∈ r.monthlyTrends, isCent m.income ∧ isCent m.expense) ∧
    isCent r.avgTransactionAmount

theorem computeAnalytics_centOutputs (sid : String) (txs : List Transaction)
    (ps : ParsingSummary) : centOutputs (computeAnalytics sid txs ps) := by
  unfold centOutputs computeAnalytics objectMapRound2
  dsimp only
  refine ⟨round2_isCent _, round2_isCent _, round2_isCent _, ?_, ?_, ?_, ?_⟩
  · intro p hp
    obtain ⟨q, _, rfl⟩ := List.mem_map.mp hp
    exact round2_isCent _
  · intro e he
    obtain ⟨e0, _, rfl⟩ := List.mem_map.mp he
    exact round2_isCent _
  · intro m hm
    obtain ⟨p, _, rfl⟩ := List.mem_map.mp hm
    exact ⟨round2_isCent _, round2_isCent _⟩
  · split
    · exact round2_isCent _
    · exact ⟨0, by norm_num⟩

/-- C5, counterexample.  At `v = -0.005` (an exact tie), the claimed
round-half-away-from-zero would give `-0.01`, but `round2` (built on
`Math.round`, which rounds ties towards positive infinity) gives `0`. -/
theorem round2_half_away_cex :
    round2 (-(1 : ℚ) / 200) = 0 ∧ (-(1 : ℚ) / 100 : ℚ) ≠ 0 := by
  constructor
  · decide
  · norm_num

/-- C5 (amended).  Every monetary output of `computeAnalytics` is
produced by `round2` and is an exact multiple of 0.01; `round2 v` is
`Math.round((v + ε)·100)/100` with `ε = 2⁻⁵²`, which rounds ties
towards positive infinity — away from zero for positive values but
towards zero for negative values (not half-away-from-zero). -/
theorem computeAnalytics_rounding :
    (∀ q : ℚ, isCent (round2 q)) ∧
      (∀ k : ℤ, round2 ((2 * (k : ℚ) + 1) / 200) = ((k : ℚ) + 1) / 100) ∧
      ∀ sid txs ps, centOutputs (computeAnalytics sid txs ps) :=
  ⟨round2_isCent, round2_tie, computeAnalytics_centOutputs⟩

def txEmptyDate : Transaction :=
  { statementId := "s", date := "", description := "X", amount := 5,
    type := "credit", category := "other", confidence := 1, rawLine := "X" }

theorem computeAnalytics_rounding_witness :
    ("other", (5 : ℚ)) ∈ (computeAnalytics "s" [txEmptyDate] psEmpty).byCategory ∧
      isCent (("other", (5 : ℚ)) : String × ℚ).2 :=
  ⟨by decide,
    (computeAnalytics_rounding.2.2 "s" [txEmptyDate] psEmpty).2.2.2.1
      ("other", (5 : ℚ)) (by decide)⟩

/-!  Claim C8: properties of the top-5 expense list. -/

theorem mem_insertExpDesc {x a : ExpenseEntry} (l : List ExpenseEntry) :
    a ∈ insertExpDesc x l ↔ a = x ∨ a ∈ l := by
  induction l with
  | nil => simp [insertExpDesc]
  | cons y ys ih =>
    unfold insertExpDesc
    split
    · simp
    · simp only [List.mem_cons, ih]
      tauto

theorem sorted_insertExpDesc {x : ExpenseEntry} {l : List ExpenseEntry}
    (h : List.Pairwise (fun a b => b.amount ≤ a.amount) l) :
    List.Pairwise (fun a b => b.amount ≤ a.amount) (insertExpDesc x l) := by
  induction l with
  | nil => simp [insertExpDesc]
  | cons y ys ih =>
    rcases List.pairwise_cons.mp h with ⟨hy, hys⟩
    unfold insertExpDesc
    split
    case isTrue hle =>
      refine List.pairwise_cons.mpr ⟨?_, h⟩
      intro b hb
      rcases List.mem_cons.mp hb with rfl | hb2
      · exact hle
      · exact le_trans (hy b hb2) hle
    case isFalse hgt =>
      refine List.pairwise_cons.mpr ⟨?_, ih hys⟩
      intro b hb
      rcases (mem_insertExpDesc ys).mp hb with rfl | hb2
      · exact le_of_not_le hgt
      · exact hy b hb2

theorem sorted_sortExpDesc (l : List ExpenseEntry) :
    List.Pairwise (fun a b => b.amount ≤ a.amount) (sortExpDesc l) := by
  induction l with
  | nil => simp [sortExpDesc]
  | cons x xs ih => exact sorted_insertExpDesc ih

theorem mem_sortExpDesc {a : ExpenseEntry} {l : List ExpenseEntry} :
    a ∈ sortExpDesc l ↔ a ∈ l := by
  induction l with
  | nil => simp [sortExpDesc]
  | cons x xs ih =>
    unfold sortExpDesc
    rw [mem_insertExpDesc, ih, List.mem_cons]

theorem filter_insertExpDesc (q : ℚ) (x : ExpenseEntry) (l : List ExpenseEntry) :
    (insertExpDesc x l).filter (fun e => e.amount = q) =
      if x.amount = q then x :: l.filter (fun e => e.amount = q)
      else l.filter (fun e => e.amount = q) := by
  induction l with
  | nil =>
    simp only [insertExpDesc, List.filter]
    by_cases hx : x.amount = q
    · simp [hx]
    · simp [hx]
  | cons y ys ih =>
    unfold insertExpDesc
    split
    case isTrue hle =>
      by_cases hx : x.amount = q
      · simp [List.filter_cons, hx]
      · simp [List.filter_cons, hx]
    case isFalse hgt =>
      have hylt : x.amount < y.amount := lt_of_not_le hgt
      by_cases hx : x.amount = q
      · have hy : y.amount ≠ q := by
          rw [← hx]
          exact ne_of_gt hylt
        simp [List.filter_cons, hy, hx, ih]
      · by_cases hy : y.amount = q
        · simp [List.filter_cons, hy, hx, ih]
        · simp [List.filter_cons, hy, hx, ih]

theorem filter_sortExpDesc (q : ℚ) (l : List ExpenseEntry) :
    (sortExpDesc l).filter (fun e => e.amount = q) =
      l.filter (fun e => e.amount = q) := by
  induction l with
  | nil => rfl
  | cons x xs ih =>
    unfold sortExpDesc
    rw [filter_insertExpDesc]
    by_cases hx : x.amount = q
    · simp [List.filter_cons, hx, ih]
    · simp [List.filter_cons, hx, ih]

/-- The debit transactions of the input, in encounter order, projected
to expense entries — what the single pass accumulates in `expenses`. -/
def expensesOf (txs : List Transaction) : List ExpenseEntry :=
  (txs.filter fun t => t.type = "debit").map
    fun t => ExpenseEntry.mk t.amount t.description t.date

theorem analyticsStep_expenses (acc : AccState) (t : Transaction) :
    (analyticsStep acc t).expenses =
      acc.expenses ++
        (if t.type = "debit" then [ExpenseEntry.mk t.amount t.description t.date]
         else []) := by
  unfold analyticsStep stepMonth stepExpenses stepCategory stepSums
  split <;> split <;> split <;> simp_all

theorem analyticsStep_income (acc : AccState) (t : Transaction) :
    (analyticsStep acc t).income =
      acc.income + (if t.type = "credit" then t.amount else 0) := by
  unfold analyticsStep stepMonth stepExpenses stepCategory stepSums
  split <;> split <;> split <;> simp_all

theorem analyticsStep_expense (acc : AccState) (t : Transaction) :
    (analyticsStep acc t).expense =
      acc.expense + (if t.type = "credit" then 0 else t.amount) := by
  unfold analyticsStep stepMonth stepExpenses stepCategory stepSums
  split <;> split <;> split <;> simp_all

theorem analyticsStep_byCategory (acc : AccState) (t : Transaction) :
    (analyticsStep acc t).byCategory =
      bumpCategory acc.byCategory (catOf t) t.amount := by
  unfold analyticsStep stepMonth stepExpenses stepCategory stepSums
  split <;> split <;> split <;> simp_all

/-- The pure month-keyed fold extracted from the pass. -/
def monthFold (txs : List Transaction) (b : List (String × MonthAgg)) :
    List (String × MonthAgg) :=
  txs.foldl
    (fun b t =>
      if monthKey t ≠ "" then bumpMonth b (monthKey t) (monthUpd t) else b) b

theorem analyticsStep_byMonth (acc : AccState) (t : Transaction) :
    (analyticsStep acc t).byMonth =
      if monthKey t ≠ "" then bumpMonth acc.byMonth (monthKey t) (monthUpd t)
      else acc.byMonth := by
  unfold analyticsStep stepMonth stepExpenses stepCategory stepSums
  split <;> split <;> split <;> simp_all

theorem analyticsFold_expenses (txs : List Transaction) :
    ∀ acc : AccState,
      (txs.foldl analyticsStep acc).expenses = acc.expenses ++ expensesOf txs := by
  induction txs with
  | nil => intro acc; simp [expensesOf]
  | cons t ts ih =>
    intro acc
    rw [List.foldl_cons, ih, analyticsStep_expenses]
    by_cases h : t.type = "debit"
    · simp [expensesOf, List.filter_cons, h]
    · simp [expensesOf, List.filter_cons, h]

theorem analyticsFold_income (txs : List Transaction) :
    ∀ acc : AccState,
      (txs.foldl analyticsStep acc).income =
        acc.income + ((txs.filter fun t => t.type = "credit").map
          fun t => t.amount).sum := by
  induction txs with
  | nil => intro acc; simp
  | cons t ts ih =>
    intro acc
    rw [List.foldl_cons, ih, analyticsStep_income]
    by_cases h : t.type = "credit"
    · simp [List.filter_cons, h]
      ring
    · simp [List.filter_cons, h]

theorem analyticsFold_expense (txs : List Transaction) :
    ∀ acc : AccState,
      (txs.foldl analyticsStep acc).expense =
        acc.expense + ((txs.filter fun t => ¬ t.type = "credit").map
          fun t => t.amount).sum := by
  induction txs with
  | nil => intro acc; simp
  | cons t ts ih =>
    intro acc
    rw [List.foldl_cons, ih, analyticsStep_expense]
    by_cases h : t.type = "credit"
    · simp [List.filter_cons, h]
    · simp [List.filter_cons, h]
      ring

theorem analyticsFold_byMonth (txs : List Transaction) :
    ∀ acc : AccState,
      (txs.foldl analyticsStep acc).byMonth = monthFold txs acc.byMonth := by
  induction txs with
  | nil => intro acc; simp [monthFold]
  | cons t ts ih =>
    intro acc
    rw [List.foldl_cons, ih, analyticsStep_byMonth]
    simp only [monthFold, List.foldl_cons]

/-- C8.  For every transaction list, `top5Expenses` has at most five
entries, all drawn from the debit transactions, sorted non-increasing
by amount; and the underlying stable sort preserves, for every amount
value, the encounter order of the equal-amount entries (its filtration
at any amount equals that of the unsorted pass output). -/
theorem top5_props (sid : String) (txs : List Transaction) (ps : ParsingSummary) :
    (computeAnalytics sid txs ps).top5Expenses.length ≤ 5 ∧
      List.Pairwise (fun a b => b.amount ≤ a.amount)
        (computeAnalytics sid txs ps).top5Expenses ∧
      (∀ e ∈ (computeAnalytics sid txs ps).top5Expenses,
        ∃ t ∈ txs, t.type = "debit" ∧ e.amount = round2 t.amount ∧
          e.description = t.description ∧ e.date = t.date) ∧
      ∀ q : ℚ, (sortExpDesc (expensesOf txs)).filter (fun e => e.amount = q) =
        (expensesOf txs).filter (fun e => e.amount = q) := by
  have hexp : (analyticsPass txs).expenses = expensesOf txs := by
    have h := analyticsFold_expenses txs analyticsInit
    simpa [analyticsPass, analyticsInit] using h
  refine ⟨?_, ?_, ?_, fun q => filter_sortExpDesc q _⟩
  · show (((sortExpDesc (analyticsPass txs).expenses).take 5).map
      (fun e => ExpenseEntry.mk (round2 e.amount) e.description e.date)).length ≤ 5
    rw [List.length_map, List.length_take]
    exact min_le_left 5 _
  · show List.Pairwise (fun a b => b.amount ≤ a.amount)
      (((sortExpDesc (analyticsPass txs).expenses).take 5).map
        (fun e => ExpenseEntry.mk (round2 e.amount) e.description e.date))
    rw [List.pairwise_map]
    refine List.Pairwise.imp (fun h => round2_mono h) ?_
    exact List.Pairwise.take (sorted_sortExpDesc _)
  · intro e he
    rw [show (computeAnalytics sid txs ps).top5Expenses =
      ((sortExpDesc (analyticsPass txs).expenses).take 5).map
        (fun e => ExpenseEntry.mk (round2 e.amount) e.description e.date) from rfl] at he
    obtain ⟨e0, he0, rfl⟩ := List.mem_map.mp he
    have he1 : e0 ∈ sortExpDesc (analyticsPass txs).expenses :=
      List.mem_of_mem_take he0
    have he2 : e0 ∈ expensesOf txs := by
      rw [hexp] at he1
      exact mem_sortExpDesc.mp he1
    obtain ⟨t, ht, rfl⟩ := List.mem_map.mp he2
    have ht2 := List.mem_filter.mp ht
    exact ⟨t, ht2.1, by simpa using ht2.2, rfl, rfl, rfl⟩

def expEntryB : ExpenseEntry :=
  { amount := 2500, description := "ATM WITHDRAWAL", date := "2024-03-05" }

theorem top5_props_witness :
    expEntryB ∈ (computeAnalytics "stmt" [txScenarioB] psEmpty).top5Expenses ∧
      ∃ t ∈ [txScenarioB], t.type = "debit" ∧ expEntryB.amount = round2 t.amount ∧
        expEntryB.description = t.description ∧ expEntryB.date = t.date :=
  ⟨by decide,
    (top5_props "stmt" [txScenarioB] psEmpty).2.2.1 expEntryB (by decide)⟩

/-!  Claim C9: transactions with a missing or empty date (for example
data reloaded from storage) still feed every total, but contribute no
month entry. -/

def lookupCat : List (String × ℚ) → String → Option ℚ
  | [], _ => none
  | (k, v) :: t, c => if k = c then some v else lookupCat t c

theorem lookupCat_bump (l : List (String × ℚ)) (k c : String) (v : ℚ) :
    lookupCat (bumpCategory l k v) c =
      if k = c then some ((lookupCat l c).getD 0 + v) else lookupCat l c := by
  induction l with
  | nil => by_cases h : k = c <;> simp [bumpCategory, lookupCat, h]
  | cons p t ih =>
    obtain ⟨k0, v0⟩ := p
    by_cases h0 : k0 = k
    · subst h0
      by_cases hc : k0 = c
      · subst hc
        simp [bumpCategory, lookupCat]
      · simp [bumpCategory, lookupCat, hc]
    · by_cases hc : k0 = c
      · subst hc
        have hk : ¬ k = k0 := fun h => h0 h.symm
        simp [bumpCategory, lookupCat, h0, hk]
      · simp [bumpCategory, lookupCat, h0, hc, ih]

/-- Declarative per-category sum over the whole transaction list. -/
def sumCat (txs : List Transaction) (c : String) : ℚ :=
  ((txs.filter fun t => catOf t = c).map fun t => t.amount).sum

theorem analyticsFold_lookupCat (txs : List Transaction) (c : String) :
    ∀ acc : AccState,
      lookupCat (txs.foldl analyticsStep acc).byCategory c =
        match lookupCat acc.byCategory c with
        | some w => some (w + sumCat txs c)
        | none =>
          if (txs.filter fun t => catOf t = c).isEmpty then none
          else some (sumCat txs c) := by
  induction txs with
  | nil =>
    intro acc
    cases h : lookupCat acc.byCategory c <;> simp [h, sumCat]
  | cons t ts ih =>
    intro acc
    rw [List.foldl_cons, ih (analyticsStep acc t)]
    have hb : lookupCat (analyticsStep acc t).byCategory c =
        if catOf t = c then some ((lookupCat acc.byCategory c).getD 0 + t.amount)
        else lookupCat acc.byCategory c := by
      rw [analyticsStep_byCategory, lookupCat_bump]
    rw [hb]
    by_cases hcat : catOf t = c
    · have hfc : List.filter (fun t => decide (catOf t = c)) (t :: ts) =
          t :: List.filter (fun t => decide (catOf t = c)) ts := by
        simp [List.filter_cons, hcat]
      cases h : lookupCat acc.byCategory c with
      | some w =>
        simp only [if_pos hcat, h, Option.getD_some, sumCat, hfc, List.map_cons,
          List.sum_cons, Option.some.injEq]
        ring
      | none =>
        simp only [if_pos hcat, h, Option.getD_none, sumCat, hfc, List.map_cons,
          List.sum_cons, List.isEmpty_cons, Bool.false_eq_true, if_false,
          Option.some.injEq]
        ring
    · have hfe : List.filter (fun t => decide (catOf t = c)) (t :: ts) =
          List.filter (fun t => decide (catOf t = c)) ts := by
        simp [List.filter_cons, hcat]
      cases h : lookupCat acc.byCategory c with
      | some w => simp [if_neg hcat, h, sumCat, hfe]
      | none => simp [if_neg hcat, h, sumCat, hfe]

theorem lookupCat_mapRound2 (l : List (String × ℚ)) (c : String) :
    lookupCat (objectMapRound2 l) c = (lookupCat l c).map round2 := by
  induction l with
  | nil => simp [objectMapRound2, lookupCat]
  | cons p t ih =>
    obtain ⟨k, v⟩ := p
    by_cases h : k = c
    · simp [objectMapRound2, lookupCat, h]
    · simpa [objectMapRound2, lookupCat, h] using ih

theorem monthKey_eq_empty_iff (t : Transaction) : monthKey t = "" ↔ t.date = "" := by
  unfold monthKey
  constructor
  · intro h
    have h2 : t.date.data.take 7 = [] := by
      have := congrArg String.data h
      simpa [List.asString] using this
    rcases List.take_eq_nil_iff.mp h2 with h3 | h3
    · exact absurd h3 (by norm_num)
    · exact String.ext (by simpa using h3)
  · intro h
    rw [h]
    rfl

theorem monthFold_filter_empty (txs : List Transaction) :
    ∀ b, monthFold txs b = monthFold (txs.filter fun t => t.date ≠ "") b := by
  induction txs with
  | nil => intro b; rfl
  | cons t ts ih =>
    intro b
    by_cases hd : t.date = ""
    · have hk : monthKey t = "" := (monthKey_eq_empty_iff t).mpr hd
      simp only [monthFold, List.foldl_cons, List.filter_cons, hd]
      rw [if_neg (by simp [hk])]
      simpa [monthFold] using ih b
    · have hk : monthKey t ≠ "" := fun h => hd ((monthKey_eq_empty_iff t).mp h)
      simp only [monthFold, List.foldl_cons, List.filter_cons, hd]
      rw [if_pos (by simp [hk]), if_pos (by simpa using hd)]
      simp only [List.foldl_cons]
      rw [if_pos (by simp [hk])]
      simpa [monthFold] using ih (bumpMonth b (monthKey t) (monthUpd t))

theorem mem_bumpMonth {p : String × MonthAgg} (l : List (String × MonthAgg))
    (k : String) (f : MonthAgg → MonthAgg) :
    p ∈ bumpMonth l k f → p.1 = k ∨ ∃ q ∈ l, p.1 = q.1 := by
  induction l with
  | nil =>
    intro h
    simp only [bumpMonth, List.mem_singleton] at h
    exact Or.inl (by rw [h])
  | cons q t ih =>
    intro h
    obtain ⟨k0, a⟩ := q
    by_cases h0 : k0 = k
    · subst h0
      rw [show bumpMonth ((k0, a) :: t) k0 f = (k0, f a) :: t from by
        simp [bumpMonth]] at h
      cases h with
      | head => exact Or.inl rfl
      | tail _ h1 => exact Or.inr ⟨p, List.mem_cons_of_mem _ h1, rfl⟩
    · rw [show bumpMonth ((k0, a) :: t) k f = (k0, a) :: bumpMonth t k f from by
        simp [bumpMonth, h0]] at h
      cases h with
      | head => exact Or.inr ⟨(k0, a), List.mem_cons_self _ _, rfl⟩
      | tail _ h1 =>
        rcases ih h1 with h2 | ⟨q2, hq2, hp⟩
        · exact Or.inl h2
        · exact Or.inr ⟨q2, List.mem_cons_of_mem _ hq2, hp⟩

theorem monthFold_keys (txs : List Transaction) :
    ∀ b, (∀ p ∈ b, p.1 ≠ "") → ∀ p ∈ monthFold txs b, p.1 ≠ "" := by
  induction txs with
  | nil => intro b hb; exact hb
  | cons t ts ih =>
    intro b hb
    simp only [monthFold, List.foldl_cons]
    by_cases hk : monthKey t ≠ ""
    · rw [if_pos (by simp [hk])]
      refine ih _ ?_
      intro p hp
      rcases mem_bumpMonth b (monthKey t) (monthUpd t) hp with h | ⟨q, hq, hpq⟩
      · rw [h]; exact hk
      · rw [hpq]; exact hb q hq
    · rw [if_neg (by simpa using hk)]
      exact ih b hb

theorem mem_insertMonthAsc {x p : String × MonthAgg} (l : List (String × MonthAgg)) :
    p ∈ insertMonthAsc x l ↔ p = x ∨ p ∈ l := by
  induction l with
  | nil => simp [insertMonthAsc]
  | cons y ys ih =>
    unfold insertMonthAsc
    split
    · simp
    · simp only [List.mem_cons, ih]
      tauto

theorem mem_sortMonthAsc {p : String × MonthAgg} {l : List (String × MonthAgg)} :
    p ∈ sortMonthAsc l ↔ p ∈ l := by
  induction l with
  | nil => simp [sortMonthAsc]
  | cons x xs ih =>
    unfold sortMonthAsc
    rw [mem_insertMonthAsc, ih, List.mem_cons]

theorem foldl_add_amount (txs : List Transaction) :
    ∀ a : ℚ, txs.foldl (fun s t => s + t.amount) a =
      a + (txs.map fun t => t.amount).sum := by
  induction txs with
  | nil => intro a; simp
  | cons t ts ih =>
    intro a
    rw [List.foldl_cons, ih]
    simp only [List.map_cons, List.sum_cons]
    ring

/-- C9.  A transaction whose date is missing or empty (for example,
data reloaded from storage) is still counted in `totalIncome`,
`totalExpense`, `byCategory`, `transactionCount` and
`avgTransactionAmount` — all of which range over the whole input list —
but contributes no entry to `monthlyTrends`: the trends are unchanged
when the empty-date transactions are removed, and every month entry
has a non-empty key (the first seven characters of a non-empty date). -/
theorem analytics_empty_date (sid : String) (txs : List Transaction)
    (ps : ParsingSummary) :
    (computeAnalytics sid txs ps).monthlyTrends =
        (computeAnalytics sid (txs.filter fun t => t.date ≠ "") ps).monthlyTrends ∧
      (∀ mt ∈ (computeAnalytics sid txs ps).monthlyTrends, mt.month ≠ "") ∧
      (computeAnalytics sid txs ps).transactionCount = txs.length ∧
      (computeAnalytics sid txs ps).totalIncome =
        round2 ((txs.filter fun t => t.type = "credit").map fun t => t.amount).sum ∧
      (computeAnalytics sid txs ps).totalExpense =
        round2 ((txs.filter fun t => ¬ t.type = "credit").map fun t => t.amount).sum ∧
      (∀ c, lookupCat (computeAnalytics sid txs ps).byCategory c =
        if (txs.filter fun t => catOf t = c).isEmpty then none
        else some (round2 (sumCat txs c))) ∧
      (txs ≠ [] → (computeAnalytics sid txs ps).avgTransactionAmount =
        round2 ((txs.map fun t => t.amount).sum / txs.length)) := by
  have hm : (analyticsPass txs).byMonth =
      (analyticsPass (txs.filter fun t => t.date ≠ "")).byMonth := by
    simp only [analyticsPass]
    rw [analyticsFold_byMonth txs analyticsInit,
      analyticsFold_byMonth (txs.filter fun t => t.date ≠ "") analyticsInit]
    exact monthFold_filter_empty txs _
  refine ⟨?_, ?_, rfl, ?_, ?_, ?_, ?_⟩
  · show (sortMonthAsc (analyticsPass txs).byMonth).map
        (fun p => MonthTrend.mk p.1 (round2 p.2.income) (round2 p.2.expense)) =
      (sortMonthAsc (analyticsPass (txs.filter fun t => t.date ≠ "")).byMonth).map
        (fun p => MonthTrend.mk p.1 (round2 p.2.income) (round2 p.2.expense))
    rw [hm]
  · intro mt hmt
    have hmt2 : mt ∈ (sortMonthAsc (analyticsPass txs).byMonth).map
        (fun p => MonthTrend.mk p.1 (round2 p.2.income) (round2 p.2.expense)) := hmt
    obtain ⟨p, hp, rfl⟩ := List.mem_map.mp hmt2
    have hp2 : p ∈ (analyticsPass txs).byMonth := mem_sortMonthAsc.mp hp
    have hp3 : p ∈ monthFold txs [] := by
      rw [analyticsPass, analyticsFold_byMonth txs analyticsInit] at hp2
      exact hp2
    exact monthFold_keys txs [] (by simp) p hp3
  · show round2 (analyticsPass txs).income = _
    rw [analyticsPass, analyticsFold_income txs analyticsInit]
    norm_num [analyticsInit]
  · show round2 (analyticsPass txs).expense = _
    rw [analyticsPass, analyticsFold_expense txs analyticsInit]
    norm_num [analyticsInit]
  · intro c
    have h := analyticsFold_lookupCat txs c analyticsInit
    rw [show lookupCat analyticsInit.byCategory c = none from rfl] at h
    dsimp only at h
    show lookupCat (objectMapRound2 (analyticsPass txs).byCategory) c = _
    rw [lookupCat_mapRound2, analyticsPass, h]
    by_cases he : ((txs.filter fun t => catOf t = c).isEmpty : Bool) = true
    · simp [he]
    · simp [he]
  · intro hne
    have hlen : txs.length ≠ 0 := fun h => hne (List.length_eq_zero.mp h)
    show (if txs.length ≠ 0 then
        round2 ((txs.foldl (fun s t => s + t.amount) 0) / txs.length) else 0) = _
    rw [if_pos hlen, foldl_add_amount txs 0, zero_add]

theorem analytics_empty_date_witness :
    ([txEmptyDate] : List Transaction) ≠ [] ∧
      (computeAnalytics "s" [txEmptyDate] psEmpty).avgTransactionAmount =
        round2 ((([txEmptyDate] : List Transaction).map fun t => t.amount).sum /
          ([txEmptyDate] : List Transaction).length) :=
  ⟨by decide,
    (analytics_empty_date "s" [txEmptyDate] psEmpty).2.2.2.2.2.2 (by decide)⟩


